import Mathlib

/-!
Verification of the shared-library dependency closure builder and
redistribution path rewriter of the libvips precompile repository
(`tools/copy_libvips_linux.py`, `tools/copy_libvips_macos.py`,
`tools/copy_libvips_windows.py`).

The Python scripts are shallowly embedded: paths and filenames are plain
strings, the filesystem and the OS dependency lister are an explicit
environment of pure functions, and the recursive closure walk is a
fuel-indexed state-passing function.  Fuel exhaustion is recorded in an
`outOfFuel` flag, so theorems about complete runs take the hypothesis that
the flag stayed `false`.
-/

/- ## String helpers

Python string/`pathlib` operations used by the scripts, implemented by
structural recursion over `String.data` so that concrete runs reduce inside
the kernel. -/

/-- Python `s.startswith(pre)` (used as `str(lib_path).startswith(prefix)`
in both closure builders). -/
def strStartsWith (s pre : String) : Bool :=
  pre.data.isPrefixOf s.data

/-- `pat` occurs as a contiguous substring of `l` (helper for Python's
`pat in s`). -/
def listContainsSub (l pat : List Char) : Bool :=
  match l with
  | [] => pat.isEmpty
  | _ :: t => pat.isPrefixOf l || listContainsSub t pat

/-- Python `pat in s` substring test (used for the essential-library
allow-list and for `glob("*.so*")` / asset-name matching). -/
def strContainsSub (s pat : String) : Bool :=
  listContainsSub s.data pat.data

/-- `pat` occurs as a suffix (helper for Python `s.endswith(pat)`). -/
def strEndsWith (s pat : String) : Bool :=
  pat.data.isSuffixOf s.data

/-- Last `/`-separated component of a path: Python `pathlib.Path(p).name`.
(The scripts only ever apply `.name` to paths without a trailing slash, so
the trailing-slash normalisation of `pathlib` is irrelevant here.) -/
def pathName (p : String) : String :=
  String.mk ((p.data.foldl (fun acc c => if c = '/' then [] else c :: acc) []).reverse)

/-- Python `dir / file` for a bare (relative) filename: `pathlib` joins with
a single separator. -/
def joinPath (d f : String) : String :=
  d ++ "/" ++ f

/-- Python `Path(p).is_absolute()` on POSIX: the path starts with `/`. -/
def isAbsolutePath (p : String) : Bool :=
  strStartsWith p "/"

/-- Writing a file named `n` into a directory listing `l`: overwrites if
present (the filesystem keeps one entry per name), adds it otherwise.
Models `shutil.copy2(real_path, dest_path)`'s effect on the set of names
present in the output directory. -/
def insertFile (n : String) (l : List String) : List String :=
  if n ∈ l then l else n :: l

/- ## Data model: filesystem environment, log events, walker state -/

/-- The external collaborators of the closure builder (spec section 1):
the filesystem and the OS-native dependency lister, as pure functions.
`listDeps p` is the parsed output of `ldd`/`readelf` (Linux,
`get_so_deps`) or `otool -L` (macOS, `get_dylib_deps`) on the file at `p`;
`listDir d` is the directory listing used by `Path.glob` in
`find_library`. -/
structure FileSys where
  pathExists : String → Bool
  isFile : String → Bool
  isSymlink : String → Bool
  resolve : String → String
  listDeps : String → List String
  listDir : String → List String

/-- Observable log lines emitted by the closure walk, in source order:
`logger.debug(f"Skipping system library: ...")`,
`logger.warning(f"Library not found: ...")`,
`logger.info(f"Copying: ...")`,
`logger.info("  (resolved from symlink: ...)")`,
`logger.info(f"  -> {dest_path}")`. -/
inductive LogEvent where
  | debugSkipSystem (path : String)
  | warnNotFound (path : String)
  | infoCopying (path : String)
  | infoSymlinkResolved (name realName : String)
  | infoDest (destPath : String)
deriving DecidableEq

/-- Mutable state threaded through `copy_shared_libs_recursive` /
`copy_dylibs_recursive`: the `copied` set of filenames, the filenames
present in the output directory, the log stream, the list of paths the
dependency lister was invoked on, and the fuel-exhaustion marker of the
embedding. -/
structure CopyState where
  copied : List String
  outFiles : List String
  log : List LogEvent
  depQueries : List String
  outOfFuel : Bool
deriving DecidableEq

/-- The state at the start of a run: `copied = set()` and an empty output
directory. -/
def initCopyState : CopyState :=
  { copied := [], outFiles := [], log := [], depQueries := [], outOfFuel := false }

/-- The two platform walkers differ only in the system-library skip test
and in how a raw dependency string is dispatched to a recursive call; the
rest of the loop body is line-for-line identical in the two scripts.  A
configuration bundles the two varying parts together with the environment. -/
structure ClosureCfg where
  fs : FileSys
  outDir : String
  skipAsSystem : String → Bool
  resolveDep : String → Option String

/-- The copy step of the walker body (`copy_libvips_linux.py` lines
151-167, `copy_libvips_macos.py` lines 112-129): log `Copying:`, resolve
symlinks, copy the real file to `output_dir / lib_name`, add the name to
`copied`, log the symlink note when applicable, log the destination. -/
def afterCopy (cfg : ClosureCfg) (libPath : String) (s : CopyState) : CopyState :=
  let libName := pathName libPath
  let realPath := cfg.fs.resolve libPath
  let destPath := joinPath cfg.outDir libName
  let s1 := { s with log := s.log ++ [LogEvent.infoCopying libPath] }
  let s2 := { s1 with
    outFiles := insertFile libName s1.outFiles,
    copied := libName :: s1.copied }
  let s3 :=
    if cfg.fs.isSymlink libPath && (libName != pathName realPath) then
      { s2 with log := s2.log ++ [LogEvent.infoSymlinkResolved libName (pathName realPath)] }
    else s2
  { s3 with
    log := s3.log ++ [LogEvent.infoDest destPath],
    depQueries := s3.depQueries ++ [destPath] }

/-- The recursive closure walk (`copy_shared_libs_recursive`, lines
124-181 / `copy_dylibs_recursive`, lines 90-137), fuel-indexed.  In order:
return if the filename is already in `copied`; skip system libraries;
warn and return if the path does not exist; otherwise copy, then list the
dependencies of the **copied destination file** and fold the recursion
over them, dispatching each raw dependency string through
`cfg.resolveDep`. -/
def closureRec (cfg : ClosureCfg) : Nat → String → CopyState → CopyState
  | 0, _, s => { s with outOfFuel := true }
  | fuel + 1, libPath, s =>
    if pathName libPath ∈ s.copied then s
    else if cfg.skipAsSystem libPath then
      { s with log := s.log ++ [LogEvent.debugSkipSystem libPath] }
    else if !(cfg.fs.pathExists libPath) then
      { s with log := s.log ++ [LogEvent.warnNotFound libPath] }
    else
      (cfg.fs.listDeps (joinPath cfg.outDir (pathName libPath))).foldl
        (fun st dep =>
          match cfg.resolveDep dep with
          | some tgt => closureRec cfg fuel tgt st
          | none => st)
        (afterCopy cfg libPath s)

/- ## Linux instantiation (`copy_libvips_linux.py`) -/

/-- `system_prefixes = ["/lib", "/lib64", "/usr/lib", "/usr/lib64"]`
(line 139). -/
def system_prefixes : List String := ["/lib", "/lib64", "/usr/lib", "/usr/lib64"]

/-- `essential_libs = ["libstdc++", "libgcc_s"]` (line 142). -/
def essential_libs : List String := ["libstdc++", "libgcc_s"]

/-- Lines 138-145: the node is skipped when its path string starts with a
system prefix and its filename does not contain an essential-library
substring. -/
def linuxSkipAsSystem (p : String) : Bool :=
  (system_prefixes.any (fun pre => strStartsWith p pre)) &&
    !(essential_libs.any (fun e => strContainsSub (pathName p) e))

/-- `find_library(lib_name, search_paths)` (lines 111-121): for each search
path, return `search_path / lib_name` if it exists, else the first
`glob(f"{lib_name}*")` match that is a file. -/
def find_library (fs : FileSys) (lib_name : String) : List String → Option String
  | [] => none
  | search_path :: rest =>
    let lib_path := joinPath search_path lib_name
    if fs.pathExists lib_path then some lib_path
    else
      match (fs.listDir search_path).filter
          (fun f => strStartsWith f lib_name && fs.isFile (joinPath search_path f)) with
      | found :: _ => some (joinPath search_path found)
      | [] => find_library fs lib_name rest

/-- The dependency dispatch of the Linux walker (lines 171-181): recurse
on dependencies whose path starts with the Homebrew prefix; for bare
(non-absolute) names, try `find_library` and recurse when the result is
under the Homebrew prefix. -/
def linuxResolveDep (fs : FileSys) (homebrewPref : String) (search_paths : List String)
    (dep : String) : Option String :=
  if strStartsWith dep homebrewPref then some dep
  else if !(isAbsolutePath dep) then
    match find_library fs dep search_paths with
    | some found => if strStartsWith found homebrewPref then some found else none
    | none => none
  else none

/-- The configuration realising `copy_shared_libs_recursive`. -/
def linuxCfg (fs : FileSys) (output_dir homebrewPref : String)
    (search_paths : List String) : ClosureCfg :=
  { fs := fs, outDir := output_dir, skipAsSystem := linuxSkipAsSystem,
    resolveDep := linuxResolveDep fs homebrewPref search_paths }

/-- `copy_shared_libs_recursive(lib_path, output_dir, copied, homebrew_prefix,
search_paths)`; the mutable `copied` set and the other effects live in the
threaded `CopyState`. -/
def copy_shared_libs_recursive (fs : FileSys) (output_dir homebrewPref : String)
    (search_paths : List String) : Nat → String → CopyState → CopyState :=
  closureRec (linuxCfg fs output_dir homebrewPref search_paths)

/- ## macOS instantiation (`copy_libvips_macos.py`) -/

/-- Lines 103-106: any path under `/usr/lib` or `/System` is skipped; the
macOS script has no essential-library allow-list. -/
def macosSkipAsSystem (p : String) : Bool :=
  strStartsWith p "/usr/lib" || strStartsWith p "/System"

/-- Lines 133-137: only dependencies whose path starts with the Homebrew
prefix are recursed into. -/
def macosResolveDep (homebrewPref : String) (dep : String) : Option String :=
  if strStartsWith dep homebrewPref then some dep else none

/-- The configuration realising `copy_dylibs_recursive`. -/
def macosCfg (fs : FileSys) (output_dir homebrewPref : String) : ClosureCfg :=
  { fs := fs, outDir := output_dir, skipAsSystem := macosSkipAsSystem,
    resolveDep := macosResolveDep homebrewPref }

/-- `copy_dylibs_recursive(lib_path, output_dir, copied, homebrew_prefix)`. -/
def copy_dylibs_recursive (fs : FileSys) (output_dir homebrewPref : String) :
    Nat → String → CopyState → CopyState :=
  closureRec (macosCfg fs output_dir homebrewPref)

/- ## macOS path rewriter (`fix_library_paths`, lines 140-165) -/

/-- The Mach-O link metadata of the output directory after the closure run:
the filenames present, each file's install-name identifier, and the
dependency references (`otool -L` lines after the first) recorded in each
file, keyed by filename. -/
structure MachoState where
  files : List String
  installId : String → String
  depRefs : String → List String

/-- `fix_library_paths(output_dir)` (lines 140-165): for every
`glob("*.dylib")` file, set its id to `@rpath/{name}`
(`install_name_tool -id`), then for every dependency reference whose base
name exists in the output directory, change it to `@rpath/{dep_name}`
(`install_name_tool -change`); other references and non-`.dylib` files are
untouched. -/
def fix_library_paths (st : MachoState) : MachoState :=
  let dylibs := st.files.filter (fun n => strEndsWith n ".dylib")
  { st with
    installId := fun n => if n ∈ dylibs then "@rpath/" ++ n else st.installId n,
    depRefs := fun n =>
      if n ∈ dylibs then
        (st.depRefs n).map (fun dep =>
          if pathName dep ∈ st.files then "@rpath/" ++ pathName dep else dep)
      else st.depRefs n }

/- ## Linux RPATH rewriter (`fix_library_rpath`, lines 184-201) -/

/-- The ELF link metadata of the output directory: filenames present, each
file's RPATH entry, and its `NEEDED` dependency references (which
`fix_library_rpath` never touches). -/
structure ElfState where
  files : List String
  rpath : String → Option String
  neededRefs : String → List String

/-- Log lines emitted by `fix_library_rpath`. -/
inductive RpathLog where
  | warnPatchelfMissing
  | warnInstallHint
  | infoFixing (name : String)
deriving DecidableEq

/-- `fix_library_rpath(output_dir)` (lines 184-201): if `which patchelf`
fails, log two warnings and return with nothing modified; otherwise run
`patchelf --set-rpath $ORIGIN` on every `glob("*.so*")` file (every name
containing `.so`).  No per-dependency reference is rewritten. -/
def fix_library_rpath (patchelfAvailable : Bool) (st : ElfState) :
    ElfState × List RpathLog :=
  if !patchelfAvailable then
    (st, [RpathLog.warnPatchelfMissing, RpathLog.warnInstallHint])
  else
    let so_files := st.files.filter (fun n => strContainsSub n ".so")
    ({ st with rpath := fun n => if n ∈ so_files then some "$ORIGIN" else st.rpath n },
      so_files.map RpathLog.infoFixing)

/- ## Windows downloader (`copy_libvips_windows.py`) -/

/-- A GitHub release asset (`name` and `browser_download_url` are the only
fields the script reads). -/
structure Asset where
  name : String
  browser_download_url : String
deriving DecidableEq

/-- `ARCH_MAP` (lines 38-44) as a partial map, with `ARCH_MAP.get(arch, arch)`
default behaviour provided by `archMapGet`. -/
def ARCH_MAP (arch : String) : Option String :=
  if arch = "x64" then some "w64"
  else if arch = "x86_64" then some "w64"
  else if arch = "amd64" then some "w64"
  else if arch = "arm64" then some "arm64"
  else if arch = "aarch64" then some "arm64"
  else none

/-- `ARCH_MAP.get(arch, arch)` (line 87). -/
def archMapGet (arch : String) : String :=
  (ARCH_MAP arch).getD arch

/-- `find_asset_for_arch(release_info, arch, build_type)` (lines 76-109):
first scan for a `.zip` asset containing both the architecture suffix and
the build type but not `ffi`; then a fallback scan without the `ffi`
exclusion; `None` when neither scan matches. -/
def find_asset_for_arch (assets : List Asset) (arch build_type : String) :
    Option (String × String) :=
  let arch_suffix := archMapGet arch
  match assets.find? (fun a =>
      strContainsSub a.name arch_suffix && strContainsSub a.name build_type &&
      strEndsWith a.name ".zip" && !(strContainsSub a.name "ffi")) with
  | some a => some (a.browser_download_url, a.name)
  | none =>
    match assets.find? (fun a =>
        strContainsSub a.name arch_suffix && strContainsSub a.name build_type &&
        strEndsWith a.name ".zip") with
    | some a => some (a.browser_download_url, a.name)
    | none => none

/-- Log lines of the asset-selection failure branch of `main`
(lines 297-301). -/
inductive WinLog where
  | errNoDownload (arch build_type : String)
  | errAvailableHeader
  | errAssetName (name : String)
deriving DecidableEq

/-- The asset-selection slice of the Windows `main` (lines 296-302 and the
final `return 0`): when no asset matches, log the error plus every
available asset name and exit with code 1 (`sys.exit(1)`); when an asset is
found, the run continues and — download, extraction and copying being IO
collaborators outside this embedding — ends at `return 0`. -/
def windows_asset_exit (assets : List Asset) (arch build_type : String) :
    Nat × List WinLog :=
  match find_asset_for_arch assets arch build_type with
  | none =>
    (1, [WinLog.errNoDownload arch build_type, WinLog.errAvailableHeader] ++
      assets.map (fun a => WinLog.errAssetName a.name))
  | some _ => (0, [])

/- ## Version-string extraction (`get_version_from_filename`, lines 226-233) -/

/-- Python `filename.replace(".zip", "")`: remove every (non-overlapping,
left-to-right) occurrence of `.zip`. -/
def replaceZipEmpty : List Char → List Char
  | '.' :: 'z' :: 'i' :: 'p' :: t => replaceZipEmpty t
  | c :: t => c :: replaceZipEmpty t
  | [] => []

/-- Python `s.split("-")`: split on every dash; preserves empty components
(`"".split("-") == [""]`). -/
def splitDash : List Char → List (List Char)
  | [] => [[]]
  | '-' :: t => [] :: splitDash t
  | c :: t =>
    match splitDash t with
    | h :: r => (c :: h) :: r
    | [] => [[c]]

/-- Whether a component's first character is a digit (`part[0].isdigit()`
on a nonempty part; the script only meets ASCII digits, so `Char.isDigit`
is the faithful reading). -/
def startsDigit : List Char → Bool
  | [] => false
  | c :: _ => c.isDigit

/-- The `for part in parts` loop of `get_version_from_filename`:
`part[0]` on an empty part raises `IndexError` (modelled as
`Except.error ()`); a part starting with a digit is returned; if the loop
finishes, `"unknown"` is returned. -/
def versionScan : List (List Char) → Except Unit String
  | [] => Except.ok "unknown"
  | [] :: _ => Except.error ()
  | (c :: p) :: rest =>
    if c.isDigit then Except.ok (String.mk (c :: p)) else versionScan rest

/-- `get_version_from_filename(filename)` (lines 226-233). -/
def get_version_from_filename (filename : String) : Except Unit String :=
  versionScan (splitDash (replaceZipEmpty filename.data))

/-- Python `s.removesuffix(".zip")`-style removal of one trailing `.zip`. -/
def stripZipSuffix (l : List Char) : List Char :=
  if ['p', 'i', 'z', '.'].isPrefixOf l.reverse then (l.reverse.drop 4).reverse else l

/-- Modelled from the spec: claim C10 reads the code as operating on "the
name with the .zip suffix removed"; this definition follows that wording
(remove one trailing `.zip`, then the same scan), for comparison with
`get_version_from_filename`, which removes every occurrence of `.zip`. -/
def get_version_claim_reading (filename : String) : Except Unit String :=
  versionScan (splitDash (stripZipSuffix filename.data))

/-- The spec-worded result on all-nonempty components: the first component
starting with a digit, or `"unknown"` when there is none (used to state the
amended C10). -/
def firstDigitComponent (parts : List (List Char)) : String :=
  match parts.find? startsDigit with
  | some p => String.mk p
  | none => "unknown"

/- ## CLI flag parsing (`--fix-rpath` / `--fix-paths`) -/

/-- `argparse` `action="store_true"` semantics for a flag with the given
names: the destination starts at `default` and every occurrence of the flag
on the command line stores `True`.  (Modelled from the spec and the Python
library contract of `store_true`; the script only configures it.) -/
def store_true_value (flagNames : List String) (default : Bool)
    (argv : List String) : Bool :=
  argv.foldl (fun v a => if a ∈ flagNames then true else v) default

/-- The parsed `args.fix_rpath` of the Linux script (lines 262-267:
`action="store_true", default=True`). -/
def linux_fix_rpath_value (argv : List String) : Bool :=
  store_true_value ["--fix-rpath"] true argv

/-- The parsed `args.fix_paths` of the macOS script (lines 215-220:
`action="store_true", default=True`). -/
def macos_fix_paths_value (argv : List String) : Bool :=
  store_true_value ["--fix-paths"] true argv


/- ## Specification-level predicates over the walker state -/

/-- One iteration of the dependency loop: dispatch the raw dependency
string and recurse (with one unit of fuel spent) when it resolves. -/
def depStep (cfg : ClosureCfg) (fuel : Nat) (st : CopyState) (dep : String) : CopyState :=
  match cfg.resolveDep dep with
  | some tgt => closureRec cfg fuel tgt st
  | none => st

/-- State extension: the copied set, log stream and dependency-query list
only grow along the walk, and the fuel-exhaustion flag is sticky. -/
def StSub (s t : CopyState) : Prop :=
  (∀ x, x ∈ s.copied → x ∈ t.copied) ∧ (∀ e, e ∈ s.log → e ∈ t.log) ∧
    (∀ q, q ∈ s.depQueries → q ∈ t.depQueries) ∧
    (s.outOfFuel = true → t.outOfFuel = true)

/-- Log soundness of the not-found diagnostic: every `warnNotFound p` in
the log was emitted for a path that does not exist. -/
def WarnInv (cfg : ClosureCfg) (s : CopyState) : Prop :=
  ∀ p, LogEvent.warnNotFound p ∈ s.log → cfg.fs.pathExists p = false

/-- The destination paths of the copies recorded in a log, in order. -/
def copyDests (outDir : String) (log : List LogEvent) : List String :=
  log.filterMap (fun e =>
    match e with
    | LogEvent.infoCopying p => some (joinPath outDir (pathName p))
    | _ => none)

/-- All dependencies recorded in the destination file of the copied name
`n` have been handled in state `t`: each one that the walker's dispatch
resolves has its target copied or warned about. -/
def DepsDone (cfg : ClosureCfg) (n : String) (t : CopyState) : Prop :=
  ∀ d ∈ cfg.fs.listDeps (joinPath cfg.outDir n), ∀ tgt,
    cfg.resolveDep d = some tgt →
    (pathName tgt ∈ t.copied ∨ LogEvent.warnNotFound tgt ∈ t.log)

/-- Reachability through the dependency graph as the walker sees it: the
root, plus the resolved dependencies recorded in the destination file of
any reachable node that exists on disk.  (A node that does not exist has
no dependencies: it only produces the not-found diagnostic.) -/
inductive Reach (cfg : ClosureCfg) (root : String) : String → Prop
  | root : Reach cfg root root
  | step {p d tgt : String} : Reach cfg root p →
      cfg.fs.pathExists p = true →
      d ∈ cfg.fs.listDeps (joinPath cfg.outDir (pathName p)) →
      cfg.resolveDep d = some tgt →
      Reach cfg root tgt


/- ## Concrete test environments -/

/-- A small filesystem with a diamond: the root `/h/A` (under the Homebrew
prefix `/h`) depends on `/h/B` and `/h/C`, which both depend on the
missing library `/h/D`; dependencies are listed on the copied destination
files under `/o`. -/
def fsDiamond : FileSys :=
  { pathExists := fun p => p == "/h/A" || p == "/h/B" || p == "/h/C"
    isFile := fun _ => false
    isSymlink := fun _ => false
    resolve := fun p => p
    listDeps := fun p =>
      if p == "/o/A" then ["/h/B", "/h/C"]
      else if p == "/o/B" then ["/h/D"]
      else if p == "/o/C" then ["/h/D"]
      else []
    listDir := fun _ => [] }

/-- A filesystem holding one existing system-located C++ runtime library
(and nothing else). -/
def fsSystemLibs : FileSys :=
  { pathExists := fun p => p == "/usr/lib/libstdc++.6.dylib"
    isFile := fun _ => false
    isSymlink := fun _ => false
    resolve := fun p => p
    listDeps := fun _ => []
    listDir := fun _ => [] }

/-- A walker state in which the filename `A` has already been copied. -/
def stateWithA : CopyState :=
  { copied := ["A"], outFiles := ["A"], log := [], depQueries := [], outOfFuel := false }

/-- An output directory after a macOS closure run that copied one `.dylib`
and one file whose name does not end in `.dylib`; the latter records a
reference to the former. -/
def machoExample : MachoState :=
  { files := ["liba.dylib", "libweird.so"]
    installId := fun _ => ""
    depRefs := fun n =>
      if n == "libweird.so" then ["/hb/lib/liba.dylib"]
      else if n == "liba.dylib" then ["/hb/lib/libweird.so", "/usr/lib/libSystem.B.dylib"]
      else [] }

/-- An output directory after a Linux closure run. -/
def elfExample : ElfState :=
  { files := ["libvips.so.42", "VERSION.txt"]
    rpath := fun _ => none
    neededRefs := fun n => if n == "libvips.so.42" then ["libglib-2.0.so.0"] else [] }

/-- A release whose only asset is the x64 `web` zip. -/
def assetsExample : List Asset :=
  [{ name := "vips-dev-w64-web-8.17.0-static.zip",
     browser_download_url := "https://example.invalid/vips.zip" }]

/- ## Basic lemmas about the closure walk -/

theorem closureRec_zero (cfg : ClosureCfg) (lib : String) (s : CopyState) :
    closureRec cfg 0 lib s = { s with outOfFuel := true } := rfl

theorem closureRec_succ (cfg : ClosureCfg) (fuel : Nat) (lib : String) (s : CopyState) :
    closureRec cfg (fuel + 1) lib s =
      if pathName lib ∈ s.copied then s
      else if cfg.skipAsSystem lib then
        { s with log := s.log ++ [LogEvent.debugSkipSystem lib] }
      else if !(cfg.fs.pathExists lib) then
        { s with log := s.log ++ [LogEvent.warnNotFound lib] }
      else
        (cfg.fs.listDeps (joinPath cfg.outDir (pathName lib))).foldl
          (depStep cfg fuel) (afterCopy cfg lib s) := rfl

theorem afterCopy_copied (cfg : ClosureCfg) (lib : String) (s : CopyState) :
    (afterCopy cfg lib s).copied = pathName lib :: s.copied := by
  simp only [afterCopy]; split <;> rfl

theorem afterCopy_outFiles (cfg : ClosureCfg) (lib : String) (s : CopyState) :
    (afterCopy cfg lib s).outFiles = insertFile (pathName lib) s.outFiles := by
  simp only [afterCopy]; split <;> rfl

theorem afterCopy_depQueries (cfg : ClosureCfg) (lib : String) (s : CopyState) :
    (afterCopy cfg lib s).depQueries =
      s.depQueries ++ [joinPath cfg.outDir (pathName lib)] := by
  simp only [afterCopy]; split <;> rfl

theorem afterCopy_outOfFuel (cfg : ClosureCfg) (lib : String) (s : CopyState) :
    (afterCopy cfg lib s).outOfFuel = s.outOfFuel := by
  simp only [afterCopy]; split <;> rfl

theorem afterCopy_log (cfg : ClosureCfg) (lib : String) (s : CopyState) :
    (afterCopy cfg lib s).log =
      s.log ++ (LogEvent.infoCopying lib ::
        (if cfg.fs.isSymlink lib && (pathName lib != pathName (cfg.fs.resolve lib)) then
          [LogEvent.infoSymlinkResolved (pathName lib) (pathName (cfg.fs.resolve lib))]
        else []) ++ [LogEvent.infoDest (joinPath cfg.outDir (pathName lib))]) := by
  simp only [afterCopy]; split <;> simp

theorem stSub_refl (s : CopyState) : StSub s s :=
  ⟨fun _ h => h, fun _ h => h, fun _ h => h, fun h => h⟩

theorem stSub_trans {a b c : CopyState} (h1 : StSub a b) (h2 : StSub b c) : StSub a c :=
  ⟨fun x hx => h2.1 x (h1.1 x hx), fun e he => h2.2.1 e (h1.2.1 e he),
    fun q hq => h2.2.2.1 q (h1.2.2.1 q hq), fun hf => h2.2.2.2 (h1.2.2.2 hf)⟩

theorem foldl_preserve {σ α : Type} {step : σ → α → σ} {P : σ → Prop}
    (h : ∀ st a, P st → P (step st a)) :
    ∀ (l : List α) (st : σ), P st → P (List.foldl step st l)
  | [], _, hp => hp
  | a :: l, st, hp => foldl_preserve h l (step st a) (h st a hp)

theorem stSub_afterCopy (cfg : ClosureCfg) (lib : String) (s : CopyState) :
    StSub s (afterCopy cfg lib s) := by
  refine ⟨?_, ?_, ?_, ?_⟩
  · intro x hx; rw [afterCopy_copied]; exact List.mem_cons_of_mem _ hx
  · intro e he; rw [afterCopy_log]; exact List.mem_append_left _ he
  · intro q hq; rw [afterCopy_depQueries]; exact List.mem_append_left _ hq
  · intro hf; rw [afterCopy_outOfFuel]; exact hf

theorem closureRec_sub (cfg : ClosureCfg) :
    ∀ (fuel : Nat) (lib : String) (s : CopyState), StSub s (closureRec cfg fuel lib s) := by
  intro fuel
  induction fuel with
  | zero =>
    intro lib s
    rw [closureRec_zero]
    exact ⟨fun _ h => h, fun _ h => h, fun _ h => h, fun _ => rfl⟩
  | succ fuel ih =>
    intro lib s
    rw [closureRec_succ]
    split_ifs with h1 h2 h3
    · exact stSub_refl s
    · exact ⟨fun _ h => h, fun e he => List.mem_append_left _ he,
        fun _ h => h, fun h => h⟩
    · exact ⟨fun _ h => h, fun e he => List.mem_append_left _ he,
        fun _ h => h, fun h => h⟩
    · refine stSub_trans (stSub_afterCopy cfg lib s) ?_
      refine foldl_preserve (P := fun t => StSub (afterCopy cfg lib s) t) ?_ _ _
        (stSub_refl _)
      intro st a hst
      refine stSub_trans hst ?_
      unfold depStep
      cases cfg.resolveDep a with
      | some tgt => exact ih tgt st
      | none => exact stSub_refl st

theorem depStep_sub (cfg : ClosureCfg) (fuel : Nat) (st : CopyState) (a : String) :
    StSub st (depStep cfg fuel st a) := by
  unfold depStep
  cases cfg.resolveDep a with
  | some tgt => exact closureRec_sub cfg fuel tgt st
  | none => exact stSub_refl st

theorem foldl_depStep_sub (cfg : ClosureCfg) (fuel : Nat) :
    ∀ (l : List String) (st : CopyState), StSub st (List.foldl (depStep cfg fuel) st l) := by
  intro l st
  refine foldl_preserve (P := fun t => StSub st t) ?_ _ _ (stSub_refl st)
  intro st' a h
  exact stSub_trans h (depStep_sub cfg fuel st' a)

/-- Contrapositive of flag stickiness: a run that did not exhaust its fuel
started with the flag down. -/
theorem flag_false_of_closureRec (cfg : ClosureCfg) (fuel : Nat) (lib : String)
    (s : CopyState) (h : (closureRec cfg fuel lib s).outOfFuel = false) :
    s.outOfFuel = false := by
  cases hs : s.outOfFuel with
  | false => rfl
  | true => rw [(closureRec_sub cfg fuel lib s).2.2.2 hs] at h; exact absurd h (by simp)

theorem flag_false_of_foldl (cfg : ClosureCfg) (fuel : Nat) (l : List String)
    (st : CopyState) (h : (List.foldl (depStep cfg fuel) st l).outOfFuel = false) :
    st.outOfFuel = false := by
  cases hs : st.outOfFuel with
  | false => rfl
  | true => rw [(foldl_depStep_sub cfg fuel l st).2.2.2 hs] at h; exact absurd h (by simp)

/-- Visit guarantee: a call on a non-system node in a run that did not run
out of fuel leaves the node's filename copied or its path warned about. -/
theorem closureRec_visit (cfg : ClosureCfg) :
    ∀ (fuel : Nat) (lib : String) (s : CopyState),
      cfg.skipAsSystem lib = false →
      (closureRec cfg fuel lib s).outOfFuel = false →
      pathName lib ∈ (closureRec cfg fuel lib s).copied ∨
        LogEvent.warnNotFound lib ∈ (closureRec cfg fuel lib s).log := by
  intro fuel
  cases fuel with
  | zero =>
    intro lib s _ hflag
    rw [closureRec_zero] at hflag
    exact absurd hflag (by simp)
  | succ fuel =>
    intro lib s hskip hflag
    rw [closureRec_succ] at hflag ⊢
    split_ifs with h1 h2 h3
    · exact Or.inl h1
    · rw [hskip] at h2; exact absurd h2 (by simp)
    · exact Or.inr (by simp)
    · left
      refine foldl_preserve (P := fun (t : CopyState) => pathName lib ∈ t.copied) ?_ _ _ ?_
      · intro st a hmem
        exact (depStep_sub cfg fuel st a).1 _ hmem
      · simp only [afterCopy_copied]; exact List.mem_cons_self _ _

theorem closureRec_warnInv (cfg : ClosureCfg) :
    ∀ (fuel : Nat) (lib : String) (s : CopyState),
      WarnInv cfg s → WarnInv cfg (closureRec cfg fuel lib s) := by
  intro fuel
  induction fuel with
  | zero =>
    intro lib s hinv
    rw [closureRec_zero]
    exact hinv
  | succ fuel ih =>
    intro lib s hinv
    rw [closureRec_succ]
    split_ifs with h1 h2 h3
    · exact hinv
    · intro p hp
      rcases List.mem_append.mp hp with h | h
      · exact hinv p h
      · simp at h
    · intro p hp
      rcases List.mem_append.mp hp with h | h
      · exact hinv p h
      · have hpe : p = lib := by simpa using h
        subst hpe
        simpa using h3
    · refine foldl_preserve (P := WarnInv cfg) ?_ _ _ ?_
      · intro st a hst
        unfold depStep
        cases cfg.resolveDep a with
        | some tgt => exact ih tgt st hst
        | none => exact hst
      · intro p hp
        rw [afterCopy_log] at hp
        rcases List.mem_append.mp hp with h | h
        · exact hinv p h
        · rcases List.mem_cons.mp h with h' | h'
          · exact absurd h' (by simp)
          · rcases List.mem_append.mp h' with h'' | h''
            · split at h'' <;> simp at h''
            · simp at h''

/-- Each filename enters the `copied` set at most once: the walk preserves
distinctness of `copied`. -/
theorem closureRec_copied_nodup (cfg : ClosureCfg) :
    ∀ (fuel : Nat) (lib : String) (s : CopyState),
      s.copied.Nodup → (closureRec cfg fuel lib s).copied.Nodup := by
  intro fuel
  induction fuel with
  | zero =>
    intro lib s hnd
    rw [closureRec_zero]
    exact hnd
  | succ fuel ih =>
    intro lib s hnd
    rw [closureRec_succ]
    split_ifs with h1 h2 h3
    · exact hnd
    · exact hnd
    · exact hnd
    · refine foldl_preserve (P := fun (t : CopyState) => t.copied.Nodup) ?_ _ _ ?_
      · intro st a hst
        unfold depStep
        cases cfg.resolveDep a with
        | some tgt => exact ih tgt st hst
        | none => exact hst
      · simp only [afterCopy_copied]
        exact List.Nodup.cons h1 hnd

/-- The output directory never holds two entries with the same filename. -/
theorem closureRec_outFiles_nodup (cfg : ClosureCfg) :
    ∀ (fuel : Nat) (lib : String) (s : CopyState),
      s.outFiles.Nodup → (closureRec cfg fuel lib s).outFiles.Nodup := by
  intro fuel
  induction fuel with
  | zero =>
    intro lib s hnd
    rw [closureRec_zero]
    exact hnd
  | succ fuel ih =>
    intro lib s hnd
    rw [closureRec_succ]
    split_ifs with h1 h2 h3
    · exact hnd
    · exact hnd
    · exact hnd
    · refine foldl_preserve (P := fun (t : CopyState) => t.outFiles.Nodup) ?_ _ _ ?_
      · intro st a hst
        unfold depStep
        cases cfg.resolveDep a with
        | some tgt => exact ih tgt st hst
        | none => exact hst
      · simp only [afterCopy_outFiles]
        unfold insertFile
        split
        · exact hnd
        · exact List.Nodup.cons (by assumption) hnd

theorem copyDests_append (outDir : String) (l1 l2 : List LogEvent) :
    copyDests outDir (l1 ++ l2) = copyDests outDir l1 ++ copyDests outDir l2 := by
  unfold copyDests
  exact List.filterMap_append l1 l2 _

/-- The dependency lister is queried exactly on the destination path of
each copied file, in copy order. -/
theorem closureRec_depQueries (cfg : ClosureCfg) :
    ∀ (fuel : Nat) (lib : String) (s : CopyState),
      s.depQueries = copyDests cfg.outDir s.log →
      (closureRec cfg fuel lib s).depQueries =
        copyDests cfg.outDir (closureRec cfg fuel lib s).log := by
  intro fuel
  induction fuel with
  | zero =>
    intro lib s hinv
    rw [closureRec_zero]
    exact hinv
  | succ fuel ih =>
    intro lib s hinv
    rw [closureRec_succ]
    split_ifs with h1 h2 h3
    · exact hinv
    · simp only [copyDests_append, hinv]
      simp [copyDests]
    · simp only [copyDests_append, hinv]
      simp [copyDests]
    · refine foldl_preserve
        (P := fun (t : CopyState) => t.depQueries = copyDests cfg.outDir t.log) ?_ _ _ ?_
      · intro st a hst
        unfold depStep
        cases cfg.resolveDep a with
        | some tgt => exact ih tgt st hst
        | none => exact hst
      · simp only [afterCopy_depQueries, afterCopy_log, copyDests_append, hinv]
        congr 1
        simp only [copyDests, List.filterMap_cons, List.filterMap_append]
        split <;> simp [copyDests]

/- ## Completeness: every reachable controlled library is copied or warned -/

theorem depsDone_mono (cfg : ClosureCfg) (n : String) {t t' : CopyState}
    (hsub : StSub t t') (h : DepsDone cfg n t) : DepsDone cfg n t' := by
  intro d hd tgt htgt
  rcases h d hd tgt htgt with hc | hw
  · exact Or.inl (hsub.1 _ hc)
  · exact Or.inr (hsub.2.1 _ hw)

/-- Every dependency dispatched inside the fold of a fuel-sufficient run
ends up copied or warned, provided no dispatch target is skipped as a
system library. -/
theorem foldl_dep_visited (cfg : ClosureCfg) (fuel : Nat)
    (hskipAll : ∀ d tgt, cfg.resolveDep d = some tgt → cfg.skipAsSystem tgt = false) :
    ∀ (l : List String) (st : CopyState),
      (List.foldl (depStep cfg fuel) st l).outOfFuel = false →
      ∀ d ∈ l, ∀ tgt, cfg.resolveDep d = some tgt →
        pathName tgt ∈ (List.foldl (depStep cfg fuel) st l).copied ∨
          LogEvent.warnNotFound tgt ∈ (List.foldl (depStep cfg fuel) st l).log := by
  intro l
  induction l with
  | nil => intro st _ d hd; exact absurd hd (List.not_mem_nil d)
  | cons a rest ih =>
    intro st hflag d hd tgt htgt
    rcases List.mem_cons.mp hd with rfl | hd'
    · -- the dependency is the head of the loop; its own call settles it
      have hstep : depStep cfg fuel st d = closureRec cfg fuel tgt st := by
        unfold depStep; rw [htgt]
      have hsub : StSub (depStep cfg fuel st d)
          (List.foldl (depStep cfg fuel) (depStep cfg fuel st d) rest) :=
        foldl_depStep_sub cfg fuel rest _
      have hflag' : (closureRec cfg fuel tgt st).outOfFuel = false := by
        rw [← hstep]
        exact flag_false_of_foldl cfg fuel rest _ (by simpa using hflag)
      have hvisit := closureRec_visit cfg fuel tgt st (hskipAll d tgt htgt) hflag'
      rw [← hstep] at hvisit
      simp only [List.foldl_cons]
      rcases hvisit with hc | hw
      · exact Or.inl (hsub.1 _ hc)
      · exact Or.inr (hsub.2.1 _ hw)
    · simpa using ih (depStep cfg fuel st a) (by simpa using hflag) d hd' tgt htgt

/-- Any name copied inside the fold was either already copied, or the
dependencies of its destination file have been handled by the end of the
fold. -/
theorem foldl_copied_origin (cfg : ClosureCfg) (fuel : Nat)
    (ihfuel : ∀ (lib : String) (s : CopyState),
      (closureRec cfg fuel lib s).outOfFuel = false →
      ∀ n, n ∈ (closureRec cfg fuel lib s).copied →
        n ∈ s.copied ∨ DepsDone cfg n (closureRec cfg fuel lib s)) :
    ∀ (l : List String) (st : CopyState),
      (List.foldl (depStep cfg fuel) st l).outOfFuel = false →
      ∀ n, n ∈ (List.foldl (depStep cfg fuel) st l).copied →
        n ∈ st.copied ∨ DepsDone cfg n (List.foldl (depStep cfg fuel) st l) := by
  intro l
  induction l with
  | nil => intro st _ n hn; exact Or.inl hn
  | cons a rest ih =>
    intro st hflag n hn
    simp only [List.foldl_cons] at hflag hn ⊢
    rcases ih (depStep cfg fuel st a) hflag n hn with hmem | hdone
    · -- the name entered during the head step (or was there before)
      have hflag1 : (depStep cfg fuel st a).outOfFuel = false :=
        flag_false_of_foldl cfg fuel rest _ hflag
      have hsub : StSub (depStep cfg fuel st a)
          (List.foldl (depStep cfg fuel) (depStep cfg fuel st a) rest) :=
        foldl_depStep_sub cfg fuel rest _
      unfold depStep at hmem hflag1 hsub
      cases htgt : cfg.resolveDep a with
      | some tgt =>
        rw [htgt] at hmem hflag1 hsub
        rcases ihfuel tgt st hflag1 n hmem with h | h
        · exact Or.inl h
        · right
          refine depsDone_mono cfg n ?_ h
          simpa only [depStep, htgt] using foldl_depStep_sub cfg fuel rest _
      | none =>
        rw [htgt] at hmem
        exact Or.inl hmem
    · exact Or.inr hdone

/-- Whenever a fuel-sufficient run copies a name, the dependencies listed
on that name's destination file are all handled by the end of the run. -/
theorem closureRec_depsDone (cfg : ClosureCfg)
    (hskipAll : ∀ d tgt, cfg.resolveDep d = some tgt → cfg.skipAsSystem tgt = false) :
    ∀ (fuel : Nat) (lib : String) (s : CopyState),
      (closureRec cfg fuel lib s).outOfFuel = false →
      ∀ n, n ∈ (closureRec cfg fuel lib s).copied →
        n ∈ s.copied ∨ DepsDone cfg n (closureRec cfg fuel lib s) := by
  intro fuel
  induction fuel with
  | zero =>
    intro lib s hflag
    rw [closureRec_zero] at hflag
    exact absurd hflag (by simp)
  | succ fuel ih =>
    intro lib s hflag n hn
    rw [closureRec_succ] at hflag hn ⊢
    split_ifs at hflag hn ⊢ with h1 h2 h3
    · exact Or.inl hn
    · exact Or.inl hn
    · exact Or.inl hn
    · have hmain := foldl_copied_origin cfg fuel ih _ (afterCopy cfg lib s) hflag n hn
      rcases hmain with hmem | hdone
      · rw [afterCopy_copied] at hmem
        rcases List.mem_cons.mp hmem with rfl | hs
        · -- n is the name copied by this very call: its dest's deps are
          -- exactly the list this fold ran over
          right
          intro d hd tgt htgt
          exact foldl_dep_visited cfg fuel hskipAll _ (afterCopy cfg lib s) hflag d hd tgt htgt
        · exact Or.inl hs
      · exact Or.inr hdone

/-- Completeness of the closure walk: in a fuel-sufficient run from the
initial state, every reachable node (the root and all resolved, hence
controlled, dependencies) ends up with its filename copied or its path
explicitly warned about — never silently dropped. -/
theorem closureRec_reach_complete (cfg : ClosureCfg)
    (hskipAll : ∀ d tgt, cfg.resolveDep d = some tgt → cfg.skipAsSystem tgt = false)
    (root : String) (hroot : cfg.skipAsSystem root = false) (fuel : Nat)
    (hflag : (closureRec cfg fuel root initCopyState).outOfFuel = false) :
    ∀ p, Reach cfg root p →
      pathName p ∈ (closureRec cfg fuel root initCopyState).copied ∨
        LogEvent.warnNotFound p ∈ (closureRec cfg fuel root initCopyState).log := by
  intro p hreach
  induction hreach with
  | root => exact closureRec_visit cfg fuel root initCopyState hroot hflag
  | step hr hex hd htgt ihp =>
    rename_i q d tgt
    rcases ihp with hc | hw
    · -- the parent's name was copied, so its destination's deps were handled
      rcases closureRec_depsDone cfg hskipAll fuel root initCopyState hflag
          (pathName q) hc with habs | hdone
      · exact absurd habs (List.not_mem_nil _)
      · exact hdone d hd tgt htgt
    · -- the parent was warned about, contradicting that it exists
      have hninv : WarnInv cfg (closureRec cfg fuel root initCopyState) :=
        closureRec_warnInv cfg fuel root initCopyState (fun p hp => absurd hp (List.not_mem_nil _))
      rw [hninv q hw] at hex
      exact absurd hex (by simp)

/- ## Idempotence machinery: the walk's control flow ignores `outFiles` -/

theorem insertFile_mem (n m : String) (l : List String) :
    m ∈ insertFile n l ↔ m = n ∨ m ∈ l := by
  unfold insertFile
  split
  · constructor
    · exact Or.inr
    · rintro (rfl | h)
      · assumption
      · assumption
  · exact List.mem_cons

theorem afterCopy_outFiles_shift (cfg : ClosureCfg) (lib : String) (s : CopyState)
    (X : List String) :
    afterCopy cfg lib { s with outFiles := X } =
      { afterCopy cfg lib s with outFiles := insertFile (pathName lib) X } := by
  simp only [afterCopy]
  split <;> rfl

theorem foldl_outFiles_shift (cfg : ClosureCfg) (fuel : Nat)
    (ihfuel : ∀ (lib : String) (s : CopyState) (X : List String),
      ∃ Y, closureRec cfg fuel lib { s with outFiles := X } =
          { closureRec cfg fuel lib s with outFiles := Y } ∧
        ∀ n, n ∈ Y ↔ n ∈ X ∨
          (n ∈ (closureRec cfg fuel lib s).copied ∧ n ∉ s.copied)) :
    ∀ (l : List String) (st : CopyState) (X : List String),
      ∃ Y, List.foldl (depStep cfg fuel) { st with outFiles := X } l =
          { List.foldl (depStep cfg fuel) st l with outFiles := Y } ∧
        ∀ n, n ∈ Y ↔ n ∈ X ∨
          (n ∈ (List.foldl (depStep cfg fuel) st l).copied ∧ n ∉ st.copied) := by
  intro l
  induction l with
  | nil =>
    intro st X
    exact ⟨X, rfl, fun n => by simp⟩
  | cons a rest ih =>
    intro st X
    simp only [List.foldl_cons]
    cases htgt : cfg.resolveDep a with
    | none =>
      have hstep : ∀ (t : CopyState), depStep cfg fuel t a = t := by
        intro t; unfold depStep; rw [htgt]
      rw [hstep, hstep]
      exact ih st X
    | some tgt =>
      have hstep : ∀ (t : CopyState), depStep cfg fuel t a = closureRec cfg fuel tgt t := by
        intro t; unfold depStep; rw [htgt]
      rw [hstep, hstep]
      rcases ihfuel tgt st X with ⟨Y1, heq1, hiff1⟩
      rw [heq1]
      rcases ih (closureRec cfg fuel tgt st) Y1 with ⟨Y, heq, hiff⟩
      refine ⟨Y, heq, ?_⟩
      intro n
      have h1 : n ∈ st.copied → n ∈ (closureRec cfg fuel tgt st).copied :=
        (closureRec_sub cfg fuel tgt st).1 n
      have h2 : n ∈ (closureRec cfg fuel tgt st).copied →
          n ∈ (List.foldl (depStep cfg fuel) (closureRec cfg fuel tgt st) rest).copied :=
        (foldl_depStep_sub cfg fuel rest (closureRec cfg fuel tgt st)).1 n
      rw [hiff n, hiff1 n]
      tauto

/-- The walk's control flow never reads `outFiles`: running from a state
whose output directory already holds `X` produces the same `copied`, log,
queries and flag, and the output directory ends up holding `X` plus
exactly the names newly copied by the run. -/
theorem closureRec_outFiles_shift (cfg : ClosureCfg) :
    ∀ (fuel : Nat) (lib : String) (s : CopyState) (X : List String),
      ∃ Y, closureRec cfg fuel lib { s with outFiles := X } =
          { closureRec cfg fuel lib s with outFiles := Y } ∧
        ∀ n, n ∈ Y ↔ n ∈ X ∨
          (n ∈ (closureRec cfg fuel lib s).copied ∧ n ∉ s.copied) := by
  intro fuel
  induction fuel with
  | zero =>
    intro lib s X
    exact ⟨X, rfl, fun n => by rw [closureRec_zero]; dsimp only; tauto⟩
  | succ fuel ih =>
    intro lib s X
    rw [closureRec_succ, closureRec_succ]
    dsimp only
    split_ifs with h1 h2 h3
    · exact ⟨X, rfl, fun n => by simp [h1]⟩
    · exact ⟨X, rfl, fun n => by simp⟩
    · exact ⟨X, rfl, fun n => by simp⟩
    · rw [afterCopy_outFiles_shift]
      rcases foldl_outFiles_shift cfg fuel ih
          (cfg.fs.listDeps (joinPath cfg.outDir (pathName lib)))
          (afterCopy cfg lib s) (insertFile (pathName lib) X) with ⟨Y, heq, hiff⟩
      refine ⟨Y, heq, ?_⟩
      intro n
      rw [hiff n, insertFile_mem, afterCopy_copied]
      have h2 : n ∈ (afterCopy cfg lib s).copied →
          n ∈ (List.foldl (depStep cfg fuel) (afterCopy cfg lib s)
            (cfg.fs.listDeps (joinPath cfg.outDir (pathName lib)))).copied :=
        (foldl_depStep_sub cfg fuel _ (afterCopy cfg lib s)).1 n
      rw [afterCopy_copied] at h2
      simp only [List.mem_cons] at h2 ⊢
      constructor
      · rintro ((rfl | hX) | hnew)
        · exact Or.inr ⟨h2 (Or.inl rfl), h1⟩
        · exact Or.inl hX
        · rcases hnew with ⟨hc, hns⟩
          right
          refine ⟨hc, ?_⟩
          intro habs
          exact hns (Or.inr habs)
      · rintro (hX | ⟨hc, hns⟩)
        · exact Or.inl (Or.inr hX)
        · by_cases heq' : n = pathName lib
          · exact Or.inl (Or.inl heq')
          · right
            refine ⟨hc, ?_⟩
            rintro (h' | h')
            · exact heq' h'
            · exact hns h'

/- ## Prefix disjointness: Homebrew paths are not system paths -/

/-- Two incomparable string literals cannot both be path string prefixes of
the same path. -/
theorem strStartsWith_disjoint {q a b : String}
    (hq : strStartsWith q a = true) (h1 : strStartsWith b a = false)
    (h2 : strStartsWith a b = false) : strStartsWith q b = false := by
  unfold strStartsWith at *
  by_contra hqb
  rw [Bool.not_eq_false, List.isPrefixOf_iff_prefix] at hqb
  rw [List.isPrefixOf_iff_prefix] at hq
  rcases List.prefix_or_prefix_of_prefix hq hqb with h | h
  · rw [← List.isPrefixOf_iff_prefix] at h
    rw [h] at h1
    exact absurd h1 (by simp)
  · rw [← List.isPrefixOf_iff_prefix] at h
    rw [h] at h2
    exact absurd h2 (by simp)

/-- Targets of the Linux dependency dispatch are always under the Homebrew
prefix. -/
theorem linuxResolveDep_target (fs : FileSys) (homebrewPref : String)
    (search_paths : List String) (d tgt : String)
    (h : linuxResolveDep fs homebrewPref search_paths d = some tgt) :
    strStartsWith tgt homebrewPref = true := by
  unfold linuxResolveDep at h
  split_ifs at h with h1 h2
  · cases h; exact h1
  · split at h
    · split_ifs at h with h3
      cases h; exact h3
    · simp at h

/-- Targets of the macOS dependency dispatch are always under the Homebrew
prefix. -/
theorem macosResolveDep_target (homebrewPref : String) (d tgt : String)
    (h : macosResolveDep homebrewPref d = some tgt) :
    strStartsWith tgt homebrewPref = true := by
  unfold macosResolveDep at h
  split_ifs at h with h1
  cases h; exact h1

/-- A path under a Homebrew prefix that is incomparable with every system
prefix is never skipped by the Linux system test. -/
theorem linuxSkip_false_of_hb {homebrewPref : String}
    (hinc : ∀ pre ∈ system_prefixes,
      strStartsWith pre homebrewPref = false ∧ strStartsWith homebrewPref pre = false)
    {q : String} (hq : strStartsWith q homebrewPref = true) :
    linuxSkipAsSystem q = false := by
  unfold linuxSkipAsSystem
  have hall : system_prefixes.any (fun pre => strStartsWith q pre) = false := by
    rw [List.any_eq_false]
    intro pre hpre
    rw [Bool.not_eq_true]
    exact strStartsWith_disjoint hq (hinc pre hpre).1 (hinc pre hpre).2
  rw [hall]
  rfl

/-- A path under a Homebrew prefix that is incomparable with `/usr/lib` and
`/System` is never skipped by the macOS system test. -/
theorem macosSkip_false_of_hb {homebrewPref : String}
    (h1 : strStartsWith "/usr/lib" homebrewPref = false)
    (h2 : strStartsWith homebrewPref "/usr/lib" = false)
    (h3 : strStartsWith "/System" homebrewPref = false)
    (h4 : strStartsWith homebrewPref "/System" = false)
    {q : String} (hq : strStartsWith q homebrewPref = true) :
    macosSkipAsSystem q = false := by
  unfold macosSkipAsSystem
  rw [strStartsWith_disjoint hq h1 h2, strStartsWith_disjoint hq h3 h4]
  rfl

/- ## Claim theorems -/

/-- C1: once a filename has been added to the copied set, any later visit
to a node with that filename returns immediately with the state unchanged
(no copy, no dependency re-listing), and — with distinct names to begin
with — a filename enters the copied set at most once per run; both for the
Linux and the macOS closure builder. -/
theorem claim_C1 (fs : FileSys) (output_dir homebrewPref : String)
    (search_paths : List String) (fuel : Nat) (lib : String) (s : CopyState) :
    (pathName lib ∈ s.copied →
      copy_shared_libs_recursive fs output_dir homebrewPref search_paths
        (fuel + 1) lib s = s ∧
      copy_dylibs_recursive fs output_dir homebrewPref (fuel + 1) lib s = s) ∧
    (s.copied.Nodup →
      (copy_shared_libs_recursive fs output_dir homebrewPref search_paths
        fuel lib s).copied.Nodup ∧
      (copy_dylibs_recursive fs output_dir homebrewPref fuel lib s).copied.Nodup) := by
  constructor
  · intro hmem
    constructor
    · show closureRec _ (fuel + 1) lib s = s
      rw [closureRec_succ]
      exact if_pos hmem
    · show closureRec _ (fuel + 1) lib s = s
      rw [closureRec_succ]
      exact if_pos hmem
  · intro hnd
    exact ⟨closureRec_copied_nodup _ fuel lib s hnd, closureRec_copied_nodup _ fuel lib s hnd⟩

/-- C1 witness: with `A` already copied, revisiting `/h/A` leaves the state
untouched on both platforms, and a fresh run keeps the copied set
duplicate-free. -/
theorem claim_C1_witness :
    pathName "/h/A" ∈ stateWithA.copied ∧
    copy_shared_libs_recursive fsDiamond "/o" "/h" [] 5 "/h/A" stateWithA = stateWithA ∧
    copy_dylibs_recursive fsDiamond "/o" "/h" 5 "/h/A" stateWithA = stateWithA ∧
    initCopyState.copied.Nodup ∧
    (copy_shared_libs_recursive fsDiamond "/o" "/h" [] 6 "/h/A" initCopyState).copied.Nodup ∧
    (copy_dylibs_recursive fsDiamond "/o" "/h" 6 "/h/A" initCopyState).copied.Nodup := by
  refine ⟨by decide, ?_, ?_, by decide, ?_, ?_⟩
  · exact ((claim_C1 fsDiamond "/o" "/h" [] 4 "/h/A" stateWithA).1 (by decide)).1
  · exact ((claim_C1 fsDiamond "/o" "/h" [] 4 "/h/A" stateWithA).1 (by decide)).2
  · exact ((claim_C1 fsDiamond "/o" "/h" [] 6 "/h/A" initCopyState).2 (by decide)).1
  · exact ((claim_C1 fsDiamond "/o" "/h" [] 6 "/h/A" initCopyState).2 (by decide)).2

/-- C2 counterexample: the macOS closure builder has no allow-list — an
existing C++ runtime library under `/usr/lib` is skipped (never copied),
contradicting the claim that on both platforms such a node is copied and
recursed into; the Linux builder, by contrast, does copy it. -/
theorem claim_C2_counterexample :
    macosSkipAsSystem "/usr/lib/libstdc++.6.dylib" = true ∧
    strContainsSub (pathName "/usr/lib/libstdc++.6.dylib") "libstdc++" = true ∧
    fsSystemLibs.pathExists "/usr/lib/libstdc++.6.dylib" = true ∧
    copy_dylibs_recursive fsSystemLibs "/o" "/hb" 5 "/usr/lib/libstdc++.6.dylib"
        initCopyState =
      { initCopyState with
        log := [LogEvent.debugSkipSystem "/usr/lib/libstdc++.6.dylib"] } ∧
    pathName "/usr/lib/libstdc++.6.dylib" ∉
      (copy_dylibs_recursive fsSystemLibs "/o" "/hb" 5 "/usr/lib/libstdc++.6.dylib"
        initCopyState).copied ∧
    pathName "/usr/lib/libstdc++.6.dylib" ∈
      (copy_shared_libs_recursive fsSystemLibs "/o" "/hb" [] 5
        "/usr/lib/libstdc++.6.dylib" initCopyState).copied := by
  decide

/-- C2 amended: the Linux builder skips a system-prefixed node exactly when
its filename contains no essential-library substring, in which case the
only effect is the skip log line; a system-prefixed node whose name
contains an essential substring and which exists is copied and its
destination's dependencies are listed.  The macOS builder skips every node
under `/usr/lib` or `/System` unconditionally — it has no allow-list. -/
theorem claim_C2_amended (fs : FileSys) (output_dir homebrewPref : String)
    (search_paths : List String) (fuel : Nat) (lib : String) (s : CopyState) :
    (linuxSkipAsSystem lib = true → pathName lib ∉ s.copied →
      copy_shared_libs_recursive fs output_dir homebrewPref search_paths
        (fuel + 1) lib s =
        { s with log := s.log ++ [LogEvent.debugSkipSystem lib] }) ∧
    (system_prefixes.any (fun pre => strStartsWith lib pre) = true →
      essential_libs.any (fun e => strContainsSub (pathName lib) e) = true →
      pathName lib ∉ s.copied → fs.pathExists lib = true →
      pathName lib ∈ (copy_shared_libs_recursive fs output_dir homebrewPref
        search_paths (fuel + 1) lib s).copied ∧
      joinPath output_dir (pathName lib) ∈ (copy_shared_libs_recursive fs
        output_dir homebrewPref search_paths (fuel + 1) lib s).depQueries) ∧
    (macosSkipAsSystem lib = true → pathName lib ∉ s.copied →
      copy_dylibs_recursive fs output_dir homebrewPref (fuel + 1) lib s =
        { s with log := s.log ++ [LogEvent.debugSkipSystem lib] }) := by
  refine ⟨?_, ?_, ?_⟩
  · intro hskip hmem
    show closureRec _ (fuel + 1) lib s = _
    rw [closureRec_succ, if_neg hmem]
    exact if_pos hskip
  · intro hsys hess hmem hex
    have hskip : linuxSkipAsSystem lib = false := by
      unfold linuxSkipAsSystem
      rw [hsys, hess]
      rfl
    constructor
    · show pathName lib ∈ (closureRec (linuxCfg fs output_dir homebrewPref search_paths)
        (fuel + 1) lib s).copied
      rw [closureRec_succ, if_neg hmem]
      have hskip' : (linuxCfg fs output_dir homebrewPref search_paths).skipAsSystem lib = false :=
        hskip
      have hex' : (linuxCfg fs output_dir homebrewPref search_paths).fs.pathExists lib = true :=
        hex
      rw [if_neg (by rw [hskip']; exact Bool.false_ne_true), if_neg (by rw [hex']; simp)]
      refine (foldl_depStep_sub _ fuel _ _).1 _ ?_
      rw [afterCopy_copied]
      exact List.mem_cons_self _ _
    · show joinPath output_dir (pathName lib) ∈
        (closureRec (linuxCfg fs output_dir homebrewPref search_paths)
          (fuel + 1) lib s).depQueries
      rw [closureRec_succ, if_neg hmem]
      have hskip' : (linuxCfg fs output_dir homebrewPref search_paths).skipAsSystem lib = false :=
        hskip
      have hex' : (linuxCfg fs output_dir homebrewPref search_paths).fs.pathExists lib = true :=
        hex
      rw [if_neg (by rw [hskip']; exact Bool.false_ne_true), if_neg (by rw [hex']; simp)]
      refine (foldl_depStep_sub _ fuel _ _).2.2.1 _ ?_
      rw [afterCopy_depQueries]
      exact List.mem_append_right _ (by simp [linuxCfg])
  · intro hskip hmem
    show closureRec _ (fuel + 1) lib s = _
    rw [closureRec_succ, if_neg hmem]
    exact if_pos hskip

/-- C2 amended witness: the three cases at concrete inputs — a plain
system library skipped on Linux, an existing essential system library
copied and dep-listed on Linux, and the same essential library skipped on
macOS. -/
theorem claim_C2_amended_witness :
    (linuxSkipAsSystem "/usr/lib/libfoo.so" = true ∧
      pathName "/usr/lib/libfoo.so" ∉ initCopyState.copied ∧
      copy_shared_libs_recursive fsSystemLibs "/o" "/hb" [] 5 "/usr/lib/libfoo.so"
          initCopyState =
        { initCopyState with
          log := [LogEvent.debugSkipSystem "/usr/lib/libfoo.so"] }) ∧
    (fsSystemLibs.pathExists "/usr/lib/libstdc++.6.dylib" = true ∧
      pathName "/usr/lib/libstdc++.6.dylib" ∈
        (copy_shared_libs_recursive fsSystemLibs "/o" "/hb" [] 5
          "/usr/lib/libstdc++.6.dylib" initCopyState).copied) ∧
    (macosSkipAsSystem "/usr/lib/libstdc++.6.dylib" = true ∧
      copy_dylibs_recursive fsSystemLibs "/o" "/hb" 5 "/usr/lib/libstdc++.6.dylib"
          initCopyState =
        { initCopyState with
          log := [LogEvent.debugSkipSystem "/usr/lib/libstdc++.6.dylib"] }) := by
  refine ⟨⟨by decide, by decide, ?_⟩, ⟨by decide, ?_⟩, ⟨by decide, ?_⟩⟩
  · have h := (claim_C2_amended fsSystemLibs "/o" "/hb" [] 4 "/usr/lib/libfoo.so"
      initCopyState).1 (by decide) (by decide)
    simpa using h
  · exact ((claim_C2_amended fsSystemLibs "/o" "/hb" [] 4 "/usr/lib/libstdc++.6.dylib"
      initCopyState).2.1 (by decide) (by decide) (by decide) (by decide)).1
  · have h := (claim_C2_amended fsSystemLibs "/o" "/hb" [] 4 "/usr/lib/libstdc++.6.dylib"
      initCopyState).2.2 (by decide) (by decide)
    simpa using h

/-- C3 counterexample: in a diamond whose shared dependency `/h/D` is
missing, the run emits the `Library not found` diagnostic for `/h/D`
twice (once per visiting parent) — the claim's "exactly one unresolved
diagnostic line, never more than one" is false. -/
theorem claim_C3_counterexample :
    strStartsWith "/h/D" "/h" = true ∧
    ((copy_shared_libs_recursive fsDiamond "/o" "/h" [] 6 "/h/A"
        initCopyState).log.filter
      (fun e => e = LogEvent.warnNotFound "/h/D")).length = 2 ∧
    ¬(((copy_shared_libs_recursive fsDiamond "/o" "/h" [] 6 "/h/A"
        initCopyState).log.filter
      (fun e => e = LogEvent.warnNotFound "/h/D")).length ≤ 1) := by
  decide

/-- C3 amended: in a fuel-sufficient run from the initial state with the
Homebrew prefix disjoint from the system prefixes, every node reachable
from a controlled root — the root itself and every dependency the walker's
dispatch resolves (all of which are under the Homebrew prefix, hence
controlled) — ends the run with its filename copied or with at least one
`Library not found` diagnostic for its path, never neither; a missing
library shared by several copied parents may be warned about once per
visit.  Stated for the Linux and the macOS closure builders. -/
theorem claim_C3_amended (fs : FileSys) (output_dir homebrewPref : String)
    (search_paths : List String) (fuel : Nat) (root p : String) :
    ((∀ pre ∈ system_prefixes, strStartsWith pre homebrewPref = false ∧
        strStartsWith homebrewPref pre = false) →
      strStartsWith root homebrewPref = true →
      (copy_shared_libs_recursive fs output_dir homebrewPref search_paths fuel root
        initCopyState).outOfFuel = false →
      Reach (linuxCfg fs output_dir homebrewPref search_paths) root p →
      pathName p ∈ (copy_shared_libs_recursive fs output_dir homebrewPref
        search_paths fuel root initCopyState).copied ∨
        LogEvent.warnNotFound p ∈ (copy_shared_libs_recursive fs output_dir
          homebrewPref search_paths fuel root initCopyState).log) ∧
    ((strStartsWith "/usr/lib" homebrewPref = false ∧
        strStartsWith homebrewPref "/usr/lib" = false ∧
        strStartsWith "/System" homebrewPref = false ∧
        strStartsWith homebrewPref "/System" = false) →
      strStartsWith root homebrewPref = true →
      (copy_dylibs_recursive fs output_dir homebrewPref fuel root
        initCopyState).outOfFuel = false →
      Reach (macosCfg fs output_dir homebrewPref) root p →
      pathName p ∈ (copy_dylibs_recursive fs output_dir homebrewPref fuel root
        initCopyState).copied ∨
        LogEvent.warnNotFound p ∈ (copy_dylibs_recursive fs output_dir
          homebrewPref fuel root initCopyState).log) := by
  constructor
  · intro hinc hroot hflag hreach
    exact closureRec_reach_complete (linuxCfg fs output_dir homebrewPref search_paths)
      (fun d tgt h => linuxSkip_false_of_hb hinc
        (linuxResolveDep_target fs homebrewPref search_paths d tgt h))
      root (linuxSkip_false_of_hb hinc hroot) fuel hflag p hreach
  · intro hinc hroot hflag hreach
    exact closureRec_reach_complete (macosCfg fs output_dir homebrewPref)
      (fun d tgt h => macosSkip_false_of_hb hinc.1 hinc.2.1 hinc.2.2.1 hinc.2.2.2
        (macosResolveDep_target homebrewPref d tgt h))
      root (macosSkip_false_of_hb hinc.1 hinc.2.1 hinc.2.2.1 hinc.2.2.2 hroot) fuel
      hflag p hreach

/-- C3 amended witness: in the diamond environment the hypotheses hold
with prefix `/h`, and the theorem settles the reachable missing node
`/h/D`, which the step constructor reaches through the copied parent
`/h/B`. -/
theorem claim_C3_amended_witness :
    ((∀ pre ∈ system_prefixes, strStartsWith pre "/h" = false ∧
        strStartsWith "/h" pre = false) ∧
      strStartsWith "/h/A" "/h" = true ∧
      (copy_shared_libs_recursive fsDiamond "/o" "/h" [] 6 "/h/A"
        initCopyState).outOfFuel = false ∧
      (pathName "/h/D" ∈ (copy_shared_libs_recursive fsDiamond "/o" "/h" [] 6 "/h/A"
          initCopyState).copied ∨
        LogEvent.warnNotFound "/h/D" ∈ (copy_shared_libs_recursive fsDiamond "/o"
          "/h" [] 6 "/h/A" initCopyState).log)) ∧
    ((copy_dylibs_recursive fsDiamond "/o" "/h" 6 "/h/A"
        initCopyState).outOfFuel = false ∧
      (pathName "/h/D" ∈ (copy_dylibs_recursive fsDiamond "/o" "/h" 6 "/h/A"
          initCopyState).copied ∨
        LogEvent.warnNotFound "/h/D" ∈ (copy_dylibs_recursive fsDiamond "/o" "/h" 6
          "/h/A" initCopyState).log)) := by
  have hreachL : Reach (linuxCfg fsDiamond "/o" "/h" []) "/h/A" "/h/D" := by
    refine Reach.step (p := "/h/B") (d := "/h/D") ?_ (by decide) (by decide) (by decide)
    exact Reach.step (p := "/h/A") (d := "/h/B") (Reach.root) (by decide) (by decide)
      (by decide)
  have hreachM : Reach (macosCfg fsDiamond "/o" "/h") "/h/A" "/h/D" := by
    refine Reach.step (p := "/h/B") (d := "/h/D") ?_ (by decide) (by decide) (by decide)
    exact Reach.step (p := "/h/A") (d := "/h/B") (Reach.root) (by decide) (by decide)
      (by decide)
  refine ⟨⟨by decide, by decide, by decide, ?_⟩, ⟨by decide, ?_⟩⟩
  · exact (claim_C3_amended fsDiamond "/o" "/h" [] 6 "/h/A" "/h/D").1
      (by decide) (by decide) (by decide) hreachL
  · exact (claim_C3_amended fsDiamond "/o" "/h" [] 6 "/h/A" "/h/D").2
      (by decide) (by decide) (by decide) hreachM

/-- C4 counterexample: the rewriter only processes `glob("*.dylib")`
files.  A copied file whose name does not end in `.dylib` keeps its raw
reference even though the reference's base name is present in the output
directory — so "for every copied binary ... the reference has been
rewritten" fails as stated. -/
theorem claim_C4_counterexample :
    "libweird.so" ∈ machoExample.files ∧
    "/hb/lib/liba.dylib" ∈ machoExample.depRefs "libweird.so" ∧
    pathName "/hb/lib/liba.dylib" ∈ machoExample.files ∧
    (fix_library_paths machoExample).depRefs "libweird.so" = ["/hb/lib/liba.dylib"] ∧
    "@rpath/liba.dylib" ∉ (fix_library_paths machoExample).depRefs "libweird.so" := by
  decide

/-- C4 amended: after `fix_library_paths`, for every copied file whose
name ends in `.dylib` (the files the rewriter's `glob("*.dylib")`
processes): every reference whose base name matches a file present in the
output directory has been rewritten to `@rpath/` plus that base name,
every reference whose base name matches no present file is kept untouched,
every post-rewrite reference is either an `@rpath` token naming a present
file or an untouched reference to an unbundled dependency, and the file's
own identifier is `@rpath/` plus its name.  Files not ending in `.dylib`
are left entirely untouched. -/
theorem claim_C4_amended (st : MachoState) (n : String) :
    (strEndsWith n ".dylib" = true → n ∈ st.files →
      (∀ r ∈ (fix_library_paths st).depRefs n,
        (∃ b ∈ st.files, r = "@rpath/" ++ b) ∨
          (r ∈ st.depRefs n ∧ pathName r ∉ st.files)) ∧
      (∀ dep ∈ st.depRefs n, pathName dep ∉ st.files →
        dep ∈ (fix_library_paths st).depRefs n) ∧
      (∀ dep ∈ st.depRefs n, pathName dep ∈ st.files →
        ("@rpath/" ++ pathName dep) ∈ (fix_library_paths st).depRefs n) ∧
      (fix_library_paths st).installId n = "@rpath/" ++ n) ∧
    (strEndsWith n ".dylib" = false →
      (fix_library_paths st).depRefs n = st.depRefs n ∧
      (fix_library_paths st).installId n = st.installId n) := by
  constructor
  · intro hdylib hmem
    have hfil : n ∈ st.files.filter (fun m => strEndsWith m ".dylib") :=
      List.mem_filter.mpr ⟨hmem, hdylib⟩
    refine ⟨?_, ?_, ?_, ?_⟩
    · intro r hr
      simp only [fix_library_paths, if_pos hfil] at hr
      rcases List.mem_map.mp hr with ⟨dep, hdep, hfd⟩
      by_cases hp : pathName dep ∈ st.files
      · rw [if_pos hp] at hfd
        exact Or.inl ⟨pathName dep, hp, hfd.symm⟩
      · rw [if_neg hp] at hfd
        subst hfd
        exact Or.inr ⟨hdep, hp⟩
    · intro dep hdep hp
      simp only [fix_library_paths, if_pos hfil]
      exact List.mem_map.mpr ⟨dep, hdep, by rw [if_neg hp]⟩
    · intro dep hdep hp
      simp only [fix_library_paths, if_pos hfil]
      exact List.mem_map.mpr ⟨dep, hdep, by rw [if_pos hp]⟩
    · simp only [fix_library_paths, if_pos hfil]
  · intro hnd
    have hfil : n ∉ st.files.filter (fun m => strEndsWith m ".dylib") := by
      intro h
      rw [List.mem_filter] at h
      rw [hnd] at h
      exact absurd h.2 (by simp)
    constructor
    · simp only [fix_library_paths, if_neg hfil]
    · simp only [fix_library_paths, if_neg hfil]

/-- C4 amended witness: in the example output directory, the `.dylib`
file's in-bundle reference is rewritten to `@rpath` and its system
reference is untouched, while the non-`.dylib` file is untouched. -/
theorem claim_C4_amended_witness :
    (strEndsWith "liba.dylib" ".dylib" = true ∧
      "liba.dylib" ∈ machoExample.files ∧
      "/hb/lib/libweird.so" ∈ machoExample.depRefs "liba.dylib" ∧
      pathName "/hb/lib/libweird.so" ∈ machoExample.files ∧
      ("@rpath/" ++ pathName "/hb/lib/libweird.so") ∈
        (fix_library_paths machoExample).depRefs "liba.dylib" ∧
      pathName "/usr/lib/libSystem.B.dylib" ∉ machoExample.files ∧
      "/usr/lib/libSystem.B.dylib" ∈
        (fix_library_paths machoExample).depRefs "liba.dylib" ∧
      (fix_library_paths machoExample).installId "liba.dylib" = "@rpath/liba.dylib") ∧
    (strEndsWith "libweird.so" ".dylib" = false ∧
      (fix_library_paths machoExample).depRefs "libweird.so" =
        machoExample.depRefs "libweird.so") := by
  refine ⟨⟨by decide, by decide, by decide, by decide, ?_, by decide, ?_, ?_⟩,
    ⟨by decide, ?_⟩⟩
  · exact ((claim_C4_amended machoExample "liba.dylib").1 (by decide)
      (by decide)).2.2.1 "/hb/lib/libweird.so" (by decide) (by decide)
  · exact ((claim_C4_amended machoExample "liba.dylib").1 (by decide)
      (by decide)).2.1 "/usr/lib/libSystem.B.dylib" (by decide) (by decide)
  · exact ((claim_C4_amended machoExample "liba.dylib").1 (by decide)
      (by decide)).2.2.2
  · exact ((claim_C4_amended machoExample "libweird.so").2 (by decide)).1

/-- C5: when no release asset matches the requested architecture and build
type, the Windows script exits with code 1 after logging every available
asset name; when an asset is found the asset-selection phase succeeds and
the run ends at `return 0`. -/
theorem claim_C5 (assets : List Asset) (arch build_type : String) :
    (find_asset_for_arch assets arch build_type = none →
      (windows_asset_exit assets arch build_type).1 = 1 ∧
      ∀ a ∈ assets, WinLog.errAssetName a.name ∈
        (windows_asset_exit assets arch build_type).2) ∧
    (∀ url name, find_asset_for_arch assets arch build_type = some (url, name) →
      (windows_asset_exit assets arch build_type).1 = 0) := by
  constructor
  · intro hnone
    unfold windows_asset_exit
    rw [hnone]
    refine ⟨rfl, ?_⟩
    intro a ha
    refine List.mem_append_right _ ?_
    exact List.mem_map.mpr ⟨a, ha, rfl⟩
  · intro url name hsome
    unfold windows_asset_exit
    rw [hsome]

/-- C5 witness: requesting `arm64`/`web` against a release whose only
asset is the `w64` web zip fails with exit code 1 and the asset listed;
requesting `x64`/`web` succeeds with exit code 0. -/
theorem claim_C5_witness :
    find_asset_for_arch assetsExample "arm64" "web" = none ∧
    (windows_asset_exit assetsExample "arm64" "web").1 = 1 ∧
    WinLog.errAssetName "vips-dev-w64-web-8.17.0-static.zip" ∈
      (windows_asset_exit assetsExample "arm64" "web").2 ∧
    find_asset_for_arch assetsExample "x64" "web" =
      some ("https://example.invalid/vips.zip", "vips-dev-w64-web-8.17.0-static.zip") ∧
    (windows_asset_exit assetsExample "x64" "web").1 = 0 := by
  refine ⟨by decide, ?_, ?_, by decide, ?_⟩
  · exact ((claim_C5 assetsExample "arm64" "web").1 (by decide)).1
  · exact ((claim_C5 assetsExample "arm64" "web").1 (by decide)).2
      { name := "vips-dev-w64-web-8.17.0-static.zip",
        browser_download_url := "https://example.invalid/vips.zip" } (by decide)
  · exact (claim_C5 assetsExample "x64" "web").2 "https://example.invalid/vips.zip"
      "vips-dev-w64-web-8.17.0-static.zip" (by decide)

/-- C6: on both platforms, the dependency lister is invoked exactly on the
destination path (`output_dir / lib_name`) of each copied file, in copy
order, and every query corresponds to a logged copy; the recursion then
folds over exactly the list returned for that destination path. -/
theorem claim_C6 (fs : FileSys) (output_dir homebrewPref : String)
    (search_paths : List String) (fuel : Nat) (lib : String) :
    ((copy_shared_libs_recursive fs output_dir homebrewPref search_paths fuel lib
        initCopyState).depQueries =
      copyDests output_dir (copy_shared_libs_recursive fs output_dir homebrewPref
        search_paths fuel lib initCopyState).log ∧
      ∀ q ∈ (copy_shared_libs_recursive fs output_dir homebrewPref search_paths
          fuel lib initCopyState).depQueries,
        ∃ p, LogEvent.infoCopying p ∈ (copy_shared_libs_recursive fs output_dir
            homebrewPref search_paths fuel lib initCopyState).log ∧
          q = joinPath output_dir (pathName p)) ∧
    ((copy_dylibs_recursive fs output_dir homebrewPref fuel lib
        initCopyState).depQueries =
      copyDests output_dir (copy_dylibs_recursive fs output_dir homebrewPref fuel
        lib initCopyState).log ∧
      ∀ q ∈ (copy_dylibs_recursive fs output_dir homebrewPref fuel lib
          initCopyState).depQueries,
        ∃ p, LogEvent.infoCopying p ∈ (copy_dylibs_recursive fs output_dir
            homebrewPref fuel lib initCopyState).log ∧
          q = joinPath output_dir (pathName p)) := by
  have hmk : ∀ (cfg : ClosureCfg), cfg.outDir = output_dir →
      (closureRec cfg fuel lib initCopyState).depQueries =
        copyDests output_dir (closureRec cfg fuel lib initCopyState).log ∧
      ∀ q ∈ (closureRec cfg fuel lib initCopyState).depQueries,
        ∃ p, LogEvent.infoCopying p ∈ (closureRec cfg fuel lib initCopyState).log ∧
          q = joinPath output_dir (pathName p) := by
    intro cfg hout
    have heq : (closureRec cfg fuel lib initCopyState).depQueries =
        copyDests cfg.outDir (closureRec cfg fuel lib initCopyState).log :=
      closureRec_depQueries cfg fuel lib initCopyState rfl
    rw [hout] at heq
    refine ⟨heq, ?_⟩
    intro q hq
    rw [heq] at hq
    unfold copyDests at hq
    rcases List.mem_filterMap.mp hq with ⟨e, he, hsome⟩
    cases e with
    | infoCopying p =>
      refine ⟨p, he, ?_⟩
      simp at hsome
      exact hsome.symm
    | debugSkipSystem p => simp at hsome
    | warnNotFound p => simp at hsome
    | infoSymlinkResolved a b => simp at hsome
    | infoDest p => simp at hsome
  exact ⟨hmk (linuxCfg fs output_dir homebrewPref search_paths) rfl,
    hmk (macosCfg fs output_dir homebrewPref) rfl⟩

/-- C6 witness: in the diamond run, the query list is exactly the three
destination paths of the copies, and the first query corresponds to the
copy of `/h/A`. -/
theorem claim_C6_witness :
    (copy_shared_libs_recursive fsDiamond "/o" "/h" [] 6 "/h/A"
        initCopyState).depQueries =
      copyDests "/o" (copy_shared_libs_recursive fsDiamond "/o" "/h" [] 6 "/h/A"
        initCopyState).log ∧
    "/o/A" ∈ (copy_shared_libs_recursive fsDiamond "/o" "/h" [] 6 "/h/A"
        initCopyState).depQueries ∧
    (∃ p, LogEvent.infoCopying p ∈ (copy_shared_libs_recursive fsDiamond "/o" "/h"
        [] 6 "/h/A" initCopyState).log ∧
      "/o/A" = joinPath "/o" (pathName p)) ∧
    (copy_dylibs_recursive fsDiamond "/o" "/h" 6 "/h/A"
        initCopyState).depQueries =
      copyDests "/o" (copy_dylibs_recursive fsDiamond "/o" "/h" 6 "/h/A"
        initCopyState).log := by
  refine ⟨(claim_C6 fsDiamond "/o" "/h" [] 6 "/h/A").1.1, by decide, ?_,
    (claim_C6 fsDiamond "/o" "/h" [] 6 "/h/A").2.1⟩
  exact (claim_C6 fsDiamond "/o" "/h" [] 6 "/h/A").1.2 "/o/A" (by decide)

/-- C7: when `patchelf` is missing, the Linux rewriter logs the two
warnings and returns with nothing modified (the run continues and the exit
code is untouched); when it is present, every file whose name contains
`.so` gets RPATH `$ORIGIN`, and in no case is any per-dependency `NEEDED`
reference rewritten. -/
theorem claim_C7 (patchelfAvailable : Bool) (st : ElfState) :
    (patchelfAvailable = false →
      (fix_library_rpath patchelfAvailable st).1 = st ∧
      (fix_library_rpath patchelfAvailable st).2 =
        [RpathLog.warnPatchelfMissing, RpathLog.warnInstallHint]) ∧
    (patchelfAvailable = true →
      (∀ n ∈ st.files, strContainsSub n ".so" = true →
        (fix_library_rpath patchelfAvailable st).1.rpath n = some "$ORIGIN") ∧
      (fix_library_rpath patchelfAvailable st).1.files = st.files) ∧
    (fix_library_rpath patchelfAvailable st).1.neededRefs = st.neededRefs := by
  refine ⟨?_, ?_, ?_⟩
  · intro hfalse
    subst hfalse
    exact ⟨rfl, rfl⟩
  · intro htrue
    subst htrue
    refine ⟨?_, rfl⟩
    intro n hn hso
    have hfil : n ∈ st.files.filter (fun m => strContainsSub m ".so") :=
      List.mem_filter.mpr ⟨hn, hso⟩
    unfold fix_library_rpath
    simp only [Bool.not_true]
    rw [if_neg (by simp)]
    dsimp only
    exact if_pos hfil
  · cases patchelfAvailable <;> rfl

/-- C7 witness: with `patchelf` missing the state is returned unchanged
with the two warnings; with it present the `.so` file's RPATH becomes
`$ORIGIN` and the `NEEDED` references are untouched either way. -/
theorem claim_C7_witness :
    ((fix_library_rpath false elfExample).1 = elfExample ∧
      (fix_library_rpath false elfExample).2 =
        [RpathLog.warnPatchelfMissing, RpathLog.warnInstallHint]) ∧
    ("libvips.so.42" ∈ elfExample.files ∧
      strContainsSub "libvips.so.42" ".so" = true ∧
      (fix_library_rpath true elfExample).1.rpath "libvips.so.42" = some "$ORIGIN") ∧
    (fix_library_rpath true elfExample).1.neededRefs = elfExample.neededRefs := by
  refine ⟨⟨?_, ?_⟩, ⟨by decide, by decide, ?_⟩, ?_⟩
  · exact ((claim_C7 false elfExample).1 rfl).1
  · exact ((claim_C7 false elfExample).1 rfl).2
  · exact ((claim_C7 true elfExample).2.1 rfl).1 "libvips.so.42" (by decide) (by decide)
  · exact (claim_C7 true elfExample).2.2

/-- C8: running the closure builder a second time against the same root,
dependency graph and output directory (the second run starting from a
fresh `copied` set but with the files left behind by the first run)
produces an output directory holding exactly the same set of filenames,
with no duplicate entries and no extra files; on both platforms. -/
theorem claim_C8 (fs : FileSys) (output_dir homebrewPref : String)
    (search_paths : List String) (fuel : Nat) (root : String) :
    ((∀ n, n ∈ (copy_shared_libs_recursive fs output_dir homebrewPref search_paths
          fuel root
          { initCopyState with outFiles := (copy_shared_libs_recursive fs output_dir
              homebrewPref search_paths fuel root initCopyState).outFiles }).outFiles ↔
        n ∈ (copy_shared_libs_recursive fs output_dir homebrewPref search_paths fuel
          root initCopyState).outFiles) ∧
      (copy_shared_libs_recursive fs output_dir homebrewPref search_paths fuel root
        { initCopyState with outFiles := (copy_shared_libs_recursive fs output_dir
            homebrewPref search_paths fuel root initCopyState).outFiles
        }).outFiles.Nodup) ∧
    ((∀ n, n ∈ (copy_dylibs_recursive fs output_dir homebrewPref fuel root
          { initCopyState with outFiles := (copy_dylibs_recursive fs output_dir
              homebrewPref fuel root initCopyState).outFiles }).outFiles ↔
        n ∈ (copy_dylibs_recursive fs output_dir homebrewPref fuel root
          initCopyState).outFiles) ∧
      (copy_dylibs_recursive fs output_dir homebrewPref fuel root
        { initCopyState with outFiles := (copy_dylibs_recursive fs output_dir
            homebrewPref fuel root initCopyState).outFiles }).outFiles.Nodup) := by
  have hmk : ∀ (cfg : ClosureCfg),
      (∀ n, n ∈ (closureRec cfg fuel root
          { initCopyState with
            outFiles := (closureRec cfg fuel root initCopyState).outFiles }).outFiles ↔
        n ∈ (closureRec cfg fuel root initCopyState).outFiles) ∧
      (closureRec cfg fuel root
        { initCopyState with
          outFiles := (closureRec cfg fuel root initCopyState).outFiles
        }).outFiles.Nodup := by
    intro cfg
    rcases closureRec_outFiles_shift cfg fuel root initCopyState
        (closureRec cfg fuel root initCopyState).outFiles with ⟨Y, heq, hiff⟩
    rcases closureRec_outFiles_shift cfg fuel root initCopyState [] with ⟨Y0, heq0, hiff0⟩
    have heq0' : closureRec cfg fuel root initCopyState =
        { closureRec cfg fuel root initCopyState with outFiles := Y0 } := heq0
    have hfirstN : (closureRec cfg fuel root initCopyState).outFiles.Nodup :=
      closureRec_outFiles_nodup cfg fuel root initCopyState (by simp [initCopyState])
    constructor
    · intro n
      have h0 : n ∈ (closureRec cfg fuel root initCopyState).outFiles ↔
          n ∈ (closureRec cfg fuel root initCopyState).copied := by
        have hY0eq : (closureRec cfg fuel root initCopyState).outFiles = Y0 :=
          congrArg CopyState.outFiles heq0'
        rw [hY0eq, hiff0 n]
        simp [initCopyState]
      rw [show (closureRec cfg fuel root
          { initCopyState with
            outFiles := (closureRec cfg fuel root initCopyState).outFiles }).outFiles = Y
        from congrArg CopyState.outFiles heq]
      rw [hiff n]
      simp only [initCopyState, List.not_mem_nil, not_false_iff, and_true]
      tauto
    · exact closureRec_outFiles_nodup cfg fuel root _ hfirstN
  exact ⟨hmk (linuxCfg fs output_dir homebrewPref search_paths),
    hmk (macosCfg fs output_dir homebrewPref)⟩

/-- `argparse` `store_true` with `default=True` can never produce `False`. -/
theorem store_true_default_true (flagNames : List String) :
    ∀ argv, store_true_value flagNames true argv = true := by
  intro argv
  unfold store_true_value
  induction argv with
  | nil => rfl
  | cons a l ih =>
    simp only [List.foldl_cons]
    rw [ite_self]
    exact ih

/-- C9: the parsed value of `--fix-rpath` (Linux) and `--fix-paths`
(macOS) is `True` on every command line — the flag is `store_true` with
`default=True`, so no invocation can disable the rewrite phase and passing
the flag changes nothing. -/
theorem claim_C9 (argv : List String) :
    linux_fix_rpath_value argv = true ∧ macos_fix_paths_value argv = true :=
  ⟨store_true_default_true ["--fix-rpath"] argv,
    store_true_default_true ["--fix-paths"] argv⟩

/-- When every component is nonempty, the version scan returns the first
component starting with a digit, or `"unknown"`. -/
theorem versionScan_ok_of_nonempty :
    ∀ l : List (List Char), (∀ q ∈ l, q ≠ []) →
      versionScan l = Except.ok (firstDigitComponent l) := by
  intro l
  induction l with
  | nil => intro _; rfl
  | cons p rest ih =>
    intro hne
    cases p with
    | nil => exact absurd rfl (hne [] (List.mem_cons_self _ _))
    | cons c q =>
      cases hd : c.isDigit with
      | true =>
        have hfind : startsDigit (c :: q) = true := hd
        unfold versionScan firstDigitComponent
        rw [List.find?_cons_of_pos _ hfind, hd]
        rfl
      | false =>
        have hfind : startsDigit (c :: q) = false := hd
        unfold versionScan firstDigitComponent
        rw [List.find?_cons_of_neg _ (by rw [hfind]; simp), hd]
        simp only [Bool.false_eq_true, if_false]
        have := ih (fun q hq => hne q (List.mem_cons_of_mem _ hq))
        unfold firstDigitComponent at this
        exact this

/-- The version scan raises exactly when an empty component occurs before
any component starting with a digit. -/
theorem versionScan_error_iff :
    ∀ l : List (List Char), versionScan l = Except.error () ↔
      ∃ l1 l2, l = l1 ++ [] :: l2 ∧ ∀ q ∈ l1, q ≠ [] ∧ startsDigit q = false := by
  intro l
  induction l with
  | nil =>
    constructor
    · intro h
      exact absurd h (by simp [versionScan])
    · rintro ⟨l1, l2, h, -⟩
      cases l1 <;> simp_all
  | cons p rest ih =>
    cases p with
    | nil =>
      constructor
      · intro _
        exact ⟨[], rest, rfl, by simp⟩
      · intro _
        rfl
    | cons c q =>
      cases hd : c.isDigit with
      | true =>
        constructor
        · intro h
          unfold versionScan at h
          rw [hd] at h
          exact absurd h (by simp)
        · rintro ⟨l1, l2, heq, hall⟩
          cases l1 with
          | nil => simp at heq
          | cons r l1' =>
            rw [List.cons_append] at heq
            have hr : r = c :: q := ((List.cons.injEq _ _ _ _ ▸ heq).1).symm
            have := (hall r (List.mem_cons_self _ _)).2
            rw [hr] at this
            have hsd : startsDigit (c :: q) = true := hd
            rw [hsd] at this
            exact absurd this (by simp)
      | false =>
        have hstep : versionScan ((c :: q) :: rest) = versionScan rest := by
          show (if c.isDigit = true then Except.ok (String.mk (c :: q))
            else versionScan rest) = versionScan rest
          rw [hd]
          simp
        rw [hstep, ih]
        constructor
        · rintro ⟨l1, l2, heq, hall⟩
          refine ⟨(c :: q) :: l1, l2, by rw [heq]; rfl, ?_⟩
          intro r hr
          rcases List.mem_cons.mp hr with rfl | hr'
          · exact ⟨by simp, hd⟩
          · exact hall r hr'
        · rintro ⟨l1, l2, heq, hall⟩
          cases l1 with
          | nil => simp at heq
          | cons r l1' =>
            rw [List.cons_append] at heq
            have hr : r = c :: q := ((List.cons.injEq _ _ _ _ ▸ heq).1).symm
            have hrest : rest = l1' ++ [] :: l2 := (List.cons.injEq _ _ _ _ ▸ heq).2
            exact ⟨l1', l2, hrest, fun s hs => hall s (List.mem_cons_of_mem _ hs)⟩

/-- C10 counterexample: on `".zip.zip"` the claim's reading (remove the
`.zip` suffix) leaves the single nonempty component `".zip"`, so the claim
predicts the return value `"unknown"`; the code's `str.replace(".zip","")`
removes every occurrence, leaving one empty component, and the function
raises `IndexError`. -/
theorem claim_C10_counterexample :
    get_version_from_filename ".zip.zip" = Except.error () ∧
    get_version_claim_reading ".zip.zip" = Except.ok "unknown" ∧
    (∀ q ∈ splitDash (stripZipSuffix ".zip.zip".data), q ≠ []) := by
  exact ⟨by rfl, by rfl, by decide⟩

/-- C10 amended: with every occurrence of `.zip` removed (Python
`str.replace`, not suffix removal), `get_version_from_filename` raises
`IndexError` exactly when the dash-split components contain an empty
component before any digit-starting component; when all components are
nonempty it returns the first component whose first character is a digit,
or `"unknown"` if none starts with a digit. -/
theorem claim_C10_amended (filename : String) :
    (get_version_from_filename filename = Except.error () ↔
      ∃ l1 l2, splitDash (replaceZipEmpty filename.data) = l1 ++ [] :: l2 ∧
        ∀ q ∈ l1, q ≠ [] ∧ startsDigit q = false) ∧
    ((∀ q ∈ splitDash (replaceZipEmpty filename.data), q ≠ []) →
      get_version_from_filename filename =
        Except.ok (firstDigitComponent (splitDash (replaceZipEmpty filename.data)))) := by
  constructor
  · exact versionScan_error_iff _
  · intro h
    exact versionScan_ok_of_nonempty _ h

/-- C10 amended witness: a realistic asset filename has all components
nonempty and yields `8.17.0`; the error side holds at `".zip.zip"`. -/
theorem claim_C10_amended_witness :
    (∀ q ∈ splitDash (replaceZipEmpty "vips-dev-w64-web-8.17.0-static.zip".data),
      q ≠ []) ∧
    get_version_from_filename "vips-dev-w64-web-8.17.0-static.zip" =
      Except.ok (firstDigitComponent
        (splitDash (replaceZipEmpty "vips-dev-w64-web-8.17.0-static.zip".data))) ∧
    firstDigitComponent
      (splitDash (replaceZipEmpty "vips-dev-w64-web-8.17.0-static.zip".data)) =
      "8.17.0" ∧
    (∃ l1 l2, splitDash (replaceZipEmpty ".zip.zip".data) = l1 ++ [] :: l2 ∧
      ∀ q ∈ l1, q ≠ [] ∧ startsDigit q = false) := by
  refine ⟨by decide, ?_, by decide, ?_⟩
  · exact (claim_C10_amended "vips-dev-w64-web-8.17.0-static.zip").2 (by decide)
  · exact (claim_C10_amended ".zip.zip").1.mp (by rfl)
